import Mathlib

/-!
Verification development for the conversational analytics pipeline in
`src/app/api/ask/route.ts`.  JavaScript values are modelled by the `Json`
inductive below (numbers as integers; binary BSON object ids appear only in
their JSON forms); strings are modelled as lists of characters so that every
operation is an executable structural recursion.
-/

/-- Convert a Lean string literal to the character-list representation used
throughout this development. -/
def cs (s : String) : List Char := s.data

/-- JSON-like runtime values (numbers restricted to integers; this suffices for
all properties studied here, none of which depend on fractional numerics). -/
inductive Json where
  | null : Json
  | bool (b : Bool) : Json
  | num (n : Int) : Json
  | str (s : List Char) : Json
  | arr (xs : List Json) : Json
  | obj (fs : List (List Char × Json)) : Json

mutual

/-- Structural equality test on `Json` values. -/
def beqJ : Json → Json → Bool
  | Json.null, Json.null => true
  | Json.bool a, Json.bool b => a == b
  | Json.num a, Json.num b => a == b
  | Json.str a, Json.str b => a == b
  | Json.arr xs, Json.arr ys => beqL xs ys
  | Json.obj fs, Json.obj gs => beqF fs gs
  | _, _ => false

/-- Structural equality test on `Json` lists. -/
def beqL : List Json → List Json → Bool
  | [], [] => true
  | x :: xs, y :: ys => beqJ x y && beqL xs ys
  | _, _ => false

/-- Structural equality test on field lists. -/
def beqF : List (List Char × Json) → List (List Char × Json) → Bool
  | [], [] => true
  | (k, v) :: fs, (k2, v2) :: gs => k == k2 && beqJ v v2 && beqF fs gs
  | _, _ => false

end

mutual

def beqJ_iff : ∀ a b : Json, beqJ a b = true ↔ a = b
  | Json.null, b => by cases b <;> simp [beqJ]
  | Json.bool x, b => by cases b <;> simp [beqJ]
  | Json.num x, b => by cases b <;> simp [beqJ]
  | Json.str x, b => by cases b <;> simp [beqJ]
  | Json.arr xs, b => by
      cases b <;> simp [beqJ]
      exact beqL_iff xs _
  | Json.obj fs, b => by
      cases b <;> simp [beqJ]
      exact beqF_iff fs _

def beqL_iff : ∀ xs ys : List Json, beqL xs ys = true ↔ xs = ys
  | [], ys => by cases ys <;> simp [beqL]
  | x :: xs, ys => by
      cases ys with
      | nil => simp [beqL]
      | cons y ys =>
          simp [beqL, Bool.and_eq_true, beqJ_iff x y, beqL_iff xs ys]

def beqF_iff : ∀ fs gs : List (List Char × Json), beqF fs gs = true ↔ fs = gs
  | [], gs => by cases gs <;> simp [beqF]
  | (k, v) :: fs, gs => by
      cases gs with
      | nil => simp [beqF]
      | cons g gs =>
          cases g with
          | mk k2 v2 =>
              simp [beqF, Bool.and_eq_true, beqJ_iff v v2, beqF_iff fs gs,
                and_assoc]

end

instance : DecidableEq Json := fun a b => decidable_of_iff _ (beqJ_iff a b)

/-- JavaScript truthiness on modelled values: `null`, `false`, `0` and the
empty string are falsy; every object and array is truthy. -/
def truthy : Json → Bool
  | Json.null => false
  | Json.bool b => b
  | Json.num n => n != 0
  | Json.str s => !s.isEmpty
  | Json.arr _ => true
  | Json.obj _ => true

/-- Field lookup on a raw field list (first occurrence). -/
def findF : List (List Char × Json) → List Char → Option Json
  | [], _ => none
  | f :: fs, k => if f.1 = k then some f.2 else findF fs k

/-- Property read `v[k]`: `some` when `v` is an object carrying the key,
`none` (JavaScript `undefined`) otherwise. -/
def getF (v : Json) (k : List Char) : Option Json :=
  match v with
  | Json.obj fs => findF fs k
  | _ => none

/-- Whether a field list carries a key. -/
def hasKey : List (List Char × Json) → List Char → Bool
  | [], _ => false
  | f :: fs, k => f.1 = k || hasKey fs k

/-- Overwrite every binding of `k` in place (the write path taken when the
key is present). -/
def setFsM (k : List Char) (v : Json) (fs : List (List Char × Json)) :
    List (List Char × Json) :=
  fs.map (fun f => if f.1 = k then (f.1, v) else f)

/-- Property write on a field list: overwrite in place when the key exists
(keeping its position, as JavaScript objects do), append otherwise. -/
def setFs (fs : List (List Char × Json)) (k : List Char) (v : Json) :
    List (List Char × Json) :=
  if hasKey fs k then setFsM k v fs else fs ++ [(k, v)]

/-- Property write `x[k] = v` (a no-op on non-objects; all call sites below
are guarded so that the non-object case is never reached). -/
def setF (x : Json) (k : List Char) (v : Json) : Json :=
  match x with
  | Json.obj fs => Json.obj (setFs fs k v)
  | other => other

/-- Remove a key from a field list. -/
def removeFs : List (List Char × Json) → List Char → List (List Char × Json)
  | [], _ => []
  | f :: fs, k => if f.1 = k then removeFs fs k else f :: removeFs fs k

/-- Remove a key from an object (identity on non-objects). -/
def removeF (x : Json) (k : List Char) : Json :=
  match x with
  | Json.obj fs => Json.obj (removeFs fs k)
  | other => other

/-! ### Character-level string operations (JavaScript semantics) -/

/-- Whitespace characters recognised by JavaScript `\s` and `trim` (the ASCII
ones; the Unicode space family never occurs in the studied inputs). -/
def isWsChar (c : Char) : Bool :=
  c = ' ' || c = '\t' || c = '\n' || c = '\r' || c = Char.ofNat 11 || c = Char.ofNat 12

/-- JavaScript `String.prototype.trim`. -/
def trimChars (s : List Char) : List Char :=
  ((s.dropWhile isWsChar).reverse.dropWhile isWsChar).reverse

/-- Whether `s` starts with `pre`. -/
def startsChars (pre s : List Char) : Bool :=
  s.take pre.length = pre

/-- Index of the first occurrence of a character, as in `indexOf`. -/
def idxOf (c : Char) : List Char → Option Nat
  | [] => none
  | x :: xs => if x = c then some 0 else (idxOf c xs).map (fun i => i + 1)

/-- Index of the last occurrence of a character, as in `lastIndexOf`. -/
def lastIdxOf (c : Char) (s : List Char) : Option Nat :=
  (idxOf c s.reverse).map (fun i => s.length - 1 - i)

/-- JavaScript `String.prototype.split` on a single-character separator. -/
def splitOnChar (sep : Char) : List Char → List (List Char)
  | [] => [[]]
  | c :: rest =>
    let r := splitOnChar sep rest
    if c = sep then [] :: r
    else
      match r with
      | [] => [[c]]
      | h :: t => (c :: h) :: t

/-- Decimal rendering of an integer, as JavaScript `String(n)` renders an
integer-valued number. -/
def intChars (n : Int) : List Char :=
  if n < 0 then '-' :: (Nat.toDigits 10 n.natAbs) else Nat.toDigits 10 n.natAbs

/-! ### JSON text parsing (`JSON.parse`)

The strict parser below models `JSON.parse`: values are objects, arrays,
strings (with the standard escapes), integer numeric literals, `true`,
`false`, `null`; trailing non-whitespace text is an error.  Fractional and
exponent numeric literals are outside this integer-valued model (no studied
property depends on them).  As everywhere in this development, a `none`
result models a thrown exception. -/

/-- JSON insignificant whitespace. -/
def jsonWs (c : Char) : Bool :=
  c = ' ' || c = '\t' || c = '\n' || c = '\r'

/-- Skip JSON whitespace. -/
def skipWs : List Char → List Char
  | [] => []
  | c :: rest => if jsonWs c then skipWs rest else c :: rest

/-- Hexadecimal digit value. -/
def hexVal (c : Char) : Option Nat :=
  if '0' ≤ c ∧ c ≤ '9' then some (c.toNat - 48)
  else if 'a' ≤ c ∧ c ≤ 'f' then some (c.toNat - 87)
  else if 'A' ≤ c ∧ c ≤ 'F' then some (c.toNat - 55)
  else none

/-- Parse the body of a JSON string literal (after the opening quote),
returning the decoded content and the remainder after the closing quote.
The fuel argument (instantiated with the input length) only makes the
recursion structural; it never runs out. -/
def parseStrBody : Nat → List Char → Option (List Char × List Char)
  | 0, _ => none
  | Nat.succ _, [] => none
  | Nat.succ fuel, c :: rest =>
    if c = '"' then some ([], rest)
    else if c = '\\' then
      match rest with
      | [] => none
      | e :: rest2 =>
        if e = 'u' then
          match rest2 with
          | h1 :: h2 :: h3 :: h4 :: rest3 =>
            match hexVal h1, hexVal h2, hexVal h3, hexVal h4 with
            | some a, some b, some c2, some d =>
              (parseStrBody fuel rest3).map
                (fun p => (Char.ofNat (((a * 16 + b) * 16 + c2) * 16 + d) :: p.1, p.2))
            | _, _, _, _ => none
          | _ => none
        else
          let dec : Option Char :=
            if e = '"' then some '"'
            else if e = '\\' then some '\\'
            else if e = '/' then some '/'
            else if e = 'n' then some '\n'
            else if e = 't' then some '\t'
            else if e = 'r' then some '\r'
            else if e = 'b' then some (Char.ofNat 8)
            else if e = 'f' then some (Char.ofNat 12)
            else none
          match dec with
          | some d => (parseStrBody fuel rest2).map (fun p => (d :: p.1, p.2))
          | none => none
    else if c.toNat < 32 then none
    else (parseStrBody fuel rest).map (fun p => (c :: p.1, p.2))

/-- Parse a JSON integer literal (sign and digits, rejecting leading zeros as
`JSON.parse` does). -/
def parseNumTok (s : List Char) : Option (Json × List Char) :=
  let neg := startsChars (cs "-") s
  let s1 := if neg then s.drop 1 else s
  let digits := s1.takeWhile Char.isDigit
  let rest := s1.dropWhile Char.isDigit
  if digits.isEmpty then none
  else if 1 < digits.length ∧ digits.take 1 = cs "0" then none
  else
    match rest with
    | r :: _ => if r = '.' ∨ r = 'e' ∨ r = 'E' then none else
        some (Json.num (if neg then -(digitsToNat digits : Int) else (digitsToNat digits : Int)), rest)
    | [] => some (Json.num (if neg then -(digitsToNat digits : Int) else (digitsToNat digits : Int)), rest)
where
  digitsToNat (ds : List Char) : Nat := ds.foldl (fun n c => n * 10 + (c.toNat - 48)) 0

/-- Which grammar production the fueled parser is working on: a value, the
(nonempty) field list of an object, or the (nonempty) item list of an
array. -/
inductive PTask where
  | val : PTask
  | fields : PTask
  | items : PTask

/-- Parse one JSON production; the fuel (instantiated with the input length
plus two) bounds the recursion depth and never runs out on real input, since
every recursive step first consumes at least one character. -/
def parseStep : Nat → PTask → List Char → Option (Json × List Char)
  | 0, _, _ => none
  | Nat.succ fuel, PTask.val, s =>
    (match skipWs s with
    | [] => none
    | c :: rest =>
      if c = '{' then
        match skipWs rest with
        | '}' :: r2 => some (Json.obj [], r2)
        | _ => parseStep fuel PTask.fields rest
      else if c = '[' then
        match skipWs rest with
        | ']' :: r2 => some (Json.arr [], r2)
        | _ => parseStep fuel PTask.items rest
      else if c = '"' then
        (parseStrBody (rest.length + 1) rest).map (fun p => (Json.str p.1, p.2))
      else if startsChars (cs "true") (c :: rest) then
        some (Json.bool true, (c :: rest).drop 4)
      else if startsChars (cs "false") (c :: rest) then
        some (Json.bool false, (c :: rest).drop 5)
      else if startsChars (cs "null") (c :: rest) then
        some (Json.null, (c :: rest).drop 4)
      else parseNumTok (c :: rest))
  | Nat.succ fuel, PTask.fields, s =>
    (match skipWs s with
    | '"' :: rest =>
      match parseStrBody (rest.length + 1) rest with
      | none => none
      | some (key, r1) =>
        match skipWs r1 with
        | ':' :: r2 =>
          match parseStep fuel PTask.val r2 with
          | none => none
          | some (v, r3) =>
            match skipWs r3 with
            | ',' :: r4 =>
              match parseStep fuel PTask.fields r4 with
              | some (Json.obj fs, r5) => some (Json.obj ((key, v) :: fs), r5)
              | _ => none
            | '}' :: r4 => some (Json.obj [(key, v)], r4)
            | _ => none
        | _ => none
    | _ => none)
  | Nat.succ fuel, PTask.items, s =>
    (match parseStep fuel PTask.val s with
    | none => none
    | some (v, r1) =>
      match skipWs r1 with
      | ',' :: r2 =>
        match parseStep fuel PTask.items r2 with
        | some (Json.arr xs, r3) => some (Json.arr (v :: xs), r3)
        | _ => none
      | ']' :: r2 => some (Json.arr [v], r2)
      | _ => none)

/-- `JSON.parse`: parse a complete JSON document; `none` models a thrown
`SyntaxError`. -/
def jsonParse (s : List Char) : Option Json :=
  match parseStep (s.length + 2) PTask.val s with
  | some (v, rest) => if (skipWs rest).isEmpty then some v else none
  | none => none

/-! ### `safeJSONParse` (route.ts lines 27-44) -/

/-- One-pass scanner equivalent to the successive global replacements of
`/,\s*\x7d/` by `\x7d` and `/,\s*\x5d/` by `\x5d`: `pending` holds a comma and
the whitespace read after it (reversed) while deciding whether a closing
bracket follows. -/
def commaFixGo : List Char → List Char → List Char
  | pending, [] => pending.reverse
  | pending, c :: rest =>
    match pending with
    | [] =>
      if c = ',' then commaFixGo [','] rest
      else c :: commaFixGo [] rest
    | _ :: _ =>
      if isWsChar c then commaFixGo (c :: pending) rest
      else if c = '}' ∨ c = ']' then c :: commaFixGo [] rest
      else if c = ',' then pending.reverse ++ commaFixGo [','] rest
      else pending.reverse ++ (c :: commaFixGo [] rest)

/-- Drop trailing commas before closing braces/brackets, as the two
`replace` calls in `safeJSONParse` do. -/
def commaFix (s : List Char) : List Char :=
  commaFixGo [] s

/-- The replacement of the first match of the pattern
three-backticks/letters/optional-newline by the empty string; the call site
guards on the text starting with three backticks, so the first match sits at
position zero. -/
def stripLeadFence (s : List Char) : List Char :=
  match (s.drop 3).dropWhile Char.isAlpha with
  | '\n' :: t => t
  | r => r

/-- The removal of a final three-backtick fence, if present. -/
def stripTrailFence (s : List Char) : List Char :=
  if 3 ≤ s.length ∧ s.drop (s.length - 3) = cs "```" then s.take (s.length - 3) else s

/-- `safeJSONParse` from route.ts: trim, strip code fences, cut to the span
from the first opening to the last closing brace when ordered, drop trailing
commas, then parse strictly; every failure path returns `none` (the
JavaScript `catch` returns `null`). -/
def safeJSONParse (text : List Char) : Option Json :=
  let c0 := trimChars text
  let c1 :=
    if startsChars (cs "```") c0 then trimChars (stripTrailFence (stripLeadFence c0))
    else c0
  let c2 :=
    match idxOf '{' c1, lastIdxOf '}' c1 with
    | some i, some j => if i < j then (c1.drop i).take (j + 1 - i) else c1
    | _, _ => c1
  jsonParse (commaFix c2)

/-! ### Intent classification (route.ts lines 91-134)

`classifyQuestion` in the source sends a fixed prompt to the generative
backend and then normalizes the returned text; the function below is that
normalization, taking the raw backend text (after the `|| "\x7b\x7d"`
default applied at the call site) as input. -/

/-- The runtime shape produced by `classifyQuestion`.  The `intent` field is
`Json` because the source copies whatever value the parsed backend output
carried; the declared TypeScript union is not enforced at runtime. -/
structure ClassifiedIntent where
  intent : Json
  candidateName : Option Json
  candidateEmailOrPhone : Option Json
  jobDescription : Option Json
  topK : Option Json
deriving DecidableEq

/-- The early-return value `\x7b intent: "generic" \x7d`. -/
def genericCI : ClassifiedIntent :=
  ⟨Json.str (cs "generic"), none, none, none, none⟩

/-- JavaScript `x || undefined`: keep a truthy value, drop a falsy one. -/
def optTruthy : Option Json → Option Json
  | some v => if truthy v then some v else none
  | none => none

/-- The seven members of the declared `IntentType` union. -/
def intentSet : List Json :=
  [Json.str (cs "student-profile"), Json.str (cs "student-performance"),
   Json.str (cs "interview-history"), Json.str (cs "course-progress"),
   Json.str (cs "leaderboard"), Json.str (cs "candidate-recommendation"),
   Json.str (cs "generic")]

/-- The normalization performed by `classifyQuestion` on the raw backend
text: parse with `safeJSONParse`; on a falsy result or a falsy `intent`
field return the generic intent; otherwise copy the fields, defaulting
`topK` to `5`. -/
def classifyQuestion (raw : List Char) : ClassifiedIntent :=
  match safeJSONParse raw with
  | none => genericCI
  | some parsed =>
    if truthy parsed then
      match getF parsed (cs "intent") with
      | some iv =>
        if truthy iv then
          { intent := iv
            candidateName := optTruthy (getF parsed (cs "candidateName"))
            candidateEmailOrPhone := optTruthy (getF parsed (cs "candidateEmailOrPhone"))
            jobDescription := optTruthy (getF parsed (cs "jobDescription"))
            topK := some (match optTruthy (getF parsed (cs "topK")) with
              | some t => t
              | none => Json.num 5) }
        else genericCI
      | none => genericCI
    else genericCI

/-! ### Sanitizer `cleanForLLM` (route.ts lines 47-74)

The source runs `JSON.parse(JSON.stringify(obj, replacer))`.  The model
below applies the replacer top-down exactly as `JSON.stringify` does: the
replacer sees each key/value pair first, its result is then serialized
recursively; a `none` result (JavaScript `undefined`) removes an object
field and becomes `null` inside an array. -/

/-- The keys removed by the replacer: credentials plus large binary/text
fields. -/
def denyKeys : List (List Char) :=
  [cs "password", cs "passwordResetToken", cs "html", cs "css", cs "video",
   cs "pdfLink", cs "otherFile", cs "body", cs "resumeFileUrl", cs "profileImage"]

mutual

/-- The replacer applied at key `k` and value `v`, followed by recursive
serialization of the result.  Falsy values pass through first (so a falsy
value survives even under a denied key, as in the source); `\x7b "$oid":
string \x7d` containers collapse to the string; a plain object tagged
`_bsontype: "ObjectID"` has no `toHexString` method, so `String(v)` yields
`"[object Object]"`. -/
def cleanVal (k : List Char) (v : Json) : Option Json :=
  if truthy v = false then some v
  else if k ∈ denyKeys then none
  else
    match v with
    | Json.obj fs =>
      match findF fs (cs "$oid") with
      | some (Json.str s) => some (Json.str s)
      | _ =>
        match findF fs (cs "_bsontype") with
        | some (Json.str t) =>
          if t = cs "ObjectID" then some (Json.str (cs "[object Object]"))
          else some (Json.obj (cleanFields fs))
        | _ => some (Json.obj (cleanFields fs))
    | Json.arr xs => some (Json.arr (cleanElems xs))
    | other => some other

/-- Serialize the elements of an array under the replacer; element keys are
decimal indices, which never lie in the deny list, so the empty key stands
in for them. -/
def cleanElems : List Json → List Json
  | [] => []
  | x :: xs =>
    (match cleanVal [] x with
     | some y => y
     | none => Json.null) :: cleanElems xs

/-- Serialize the fields of an object under the replacer, dropping fields
whose cleaned value is undefined. -/
def cleanFields : List (List Char × Json) → List (List Char × Json)
  | [] => []
  | f :: fs =>
    match cleanVal f.1 f.2 with
    | some r => (f.1, r) :: cleanFields fs
    | none => cleanFields fs

end

/-- `cleanForLLM`: the whole sanitizer.  The root is serialized under the
empty key, which is never denied, so the result is always defined. -/
def cleanForLLM (v : Json) : Json :=
  (cleanVal [] v).getD Json.null

/-! ### Bounder `limitPayload` (route.ts lines 77-88) -/

/-- `limitPayload`: slice a top-level array, slice the array-valued direct
fields of a top-level object, and return everything else unchanged.  The
source defaults `maxItems` to 40; the one call in the pipeline passes 50. -/
def limitPayload (v : Json) (maxItems : Nat) : Json :=
  match v with
  | Json.arr xs => Json.arr (xs.take maxItems)
  | Json.obj fs =>
    Json.obj (fs.map (fun f =>
      (f.1, match f.2 with
            | Json.arr ys => Json.arr (ys.take maxItems)
            | other => other)))
  | other => other

/-- The payload the POST handler embeds in the explanation and visualization
prompts: sanitize, then bound with `maxItems = 50` (route.ts lines 652-654). -/
def pipelinePayload (rawData : Json) : Json :=
  limitPayload (cleanForLLM rawData) 50

mutual

/-- Whether every array anywhere inside the value (at any depth) has length
at most `m`. -/
def arraysBounded (m : Nat) : Json → Bool
  | Json.arr xs => decide (xs.length ≤ m) && arraysBoundedL m xs
  | Json.obj fs => arraysBoundedF m fs
  | _ => true

/-- `arraysBounded` over the elements of a list. -/
def arraysBoundedL (m : Nat) : List Json → Bool
  | [] => true
  | x :: xs => arraysBounded m x && arraysBoundedL m xs

/-- `arraysBounded` over the values of a field list. -/
def arraysBoundedF (m : Nat) : List (List Char × Json) → Bool
  | [] => true
  | f :: fs => arraysBounded m f.2 && arraysBoundedF m fs

end

/-- Whether the top-level array, or each array-valued direct field of a
top-level object, has length at most `m` (the guarantee `limitPayload`
actually provides). -/
def topBounded (m : Nat) (v : Json) : Bool :=
  match v with
  | Json.arr xs => decide (xs.length ≤ m)
  | Json.obj fs =>
    fs.all (fun f =>
      match f.2 with
      | Json.arr ys => decide (ys.length ≤ m)
      | _ => true)
  | _ => true

/-! ### Name-to-regex handling (route.ts lines 143-227 and 617-626) -/

/-- The character class of the sanitizing replacement in `resolveUsers`:
dot, star, plus, question mark, caret, dollar, braces, parentheses, pipe,
square brackets, backslash. -/
def metaChars : List Char :=
  ['.', '*', '+', '?', '^', '$', '{', '}', '(', ')', '|', '[', ']', '\\']

/-- The pattern `resolveUsers` hands to the `RegExp` constructor (lines 152
and 174): the candidate name with every regex metacharacter REMOVED (replaced
by the empty string, not escaped). -/
def resolveUsersPattern (name : List Char) : List Char :=
  name.filter (fun c => c ∉ metaChars)

/-- The pattern the fuzzy fallback inside the POST handler hands to the
`RegExp` constructor (line 621): the first two space-separated words of the
name, rejoined with a space — with no sanitization at all. -/
def fallbackPattern (name : List Char) : List Char :=
  List.intercalate (cs " ") ((splitOnChar ' ' name).take 2)

/-- Modelled from the spec: the escaping the spec requires before any
pattern is constructed ("all regex metacharacters in the name must be
escaped before constructing the pattern"); no function in the source
performs it. -/
def escapeRegex (name : List Char) : List Char :=
  name.foldr (fun c acc => if c ∈ metaChars then '\\' :: c :: acc else c :: acc) []

/-- Syntactic well-formedness of a regex pattern with respect to group and
character-class balancing and escape sequences — the aspects the `RegExp`
constructor checks that are reachable from name input: an unbalanced
parenthesis or bracket (as in a name like `"A (b"`) makes the constructor
throw a `SyntaxError`. -/
def regexOKGo : List Char → Nat → Bool → Bool
  | [], depth, inClass => depth = 0 && !inClass
  | c :: rest, depth, inClass =>
    if c = '\\' then
      match rest with
      | [] => false
      | _ :: r2 => regexOKGo r2 depth inClass
    else if inClass then
      if c = ']' then regexOKGo rest depth false else regexOKGo rest depth true
    else if c = '[' then regexOKGo rest depth true
    else if c = '(' then regexOKGo rest (depth + 1) false
    else if c = ')' then
      match depth with
      | 0 => false
      | Nat.succ d => regexOKGo rest d false
    else regexOKGo rest depth false

/-- Whether a pattern passes the balancing check. -/
def regexOK (s : List Char) : Bool :=
  regexOKGo s 0 false

/-! ### Candidate pool (route.ts lines 736-781) -/

/-- Mongo `$project` in inclusion mode: keep the listed fields (plus `_id`,
which inclusion projections keep by default — the key lists below always
carry it). -/
def projectKeep (keys : List (List Char)) (d : Json) : Json :=
  match d with
  | Json.obj fs => Json.obj (fs.filter (fun f => f.1 ∈ keys))
  | other => other

/-- `fetchCandidatePoolForJob`: the aggregation's `$lookup`, `$addFields`
and `$sort` stages are modelled by taking the ranked candidate rows as
input; the stages that decide the studied property are the trailing
`$limit: Math.max(topK, 50)` and the projection. -/
def fetchCandidatePoolForJob (rankedCandidates : List Json) (topK : Nat) : List Json :=
  (rankedCandidates.take (Nat.max topK 50)).map
    (projectKeep [cs "_id", cs "name", cs "email", cs "phoneNumber",
      cs "hasResume", cs "avgJrs"])

/-! ### Cross-reference hydrator (route.ts lines 415-507)

`hydrateInterviewQuestionsForProfiles` is modelled over an explicit
`interviewquestions` collection (`db`) and additionally returns the number
of `query` calls it issues against that collection.  Typed BSON object ids
are flattened to their string form, as everywhere in this model. -/

mutual

/-- JavaScript `String(v)` on modelled values. -/
def jsToString : Json → List Char
  | Json.null => cs "null"
  | Json.bool true => cs "true"
  | Json.bool false => cs "false"
  | Json.num n => intChars n
  | Json.str s => s
  | Json.arr xs => List.intercalate (cs ",") (jsToStringItems xs)
  | Json.obj _ => cs "[object Object]"

/-- `String` over array elements (`Array.prototype.toString` joins with
commas, rendering null elements as empty). -/
def jsToStringItems : List Json → List (List Char)
  | [] => []
  | Json.null :: xs => [] :: jsToStringItems xs
  | x :: xs => jsToString x :: jsToStringItems xs

end

/-- `ObjectId.isValid` on strings: a 24-character hexadecimal string, or any
12-character string (12 bytes). -/
def isValidObjectId (s : List Char) : Bool :=
  (s.length = 24 && s.all (fun c => (hexVal c).isSome)) || s.length = 12

/-- `(x[k] || [])` followed by iteration: the array when the field holds
one, the empty list when it is absent or falsy.  (A truthy non-array would
make the source throw; the well-formedness predicate below rules it out.) -/
def getArr (x : Json) (k : List Char) : List Json :=
  match getF x k with
  | some (Json.arr xs) => xs
  | _ => []

/-- Question-id candidates of one interview (route.ts lines 420-432): skip
falsy entries; take a string entry itself; for an object entry take the
first truthy one of `_id`, `questionId`, `id`, stringified. -/
def qidsOfInterview (iv : Json) : List (List Char) :=
  (getArr iv (cs "interviewquestions")).filterMap (fun q =>
    if truthy q = false then none
    else
      match q with
      | Json.str s => some s
      | Json.obj fs =>
        match optTruthy (findF fs (cs "_id")) with
        | some v => some (jsToString v)
        | none =>
          match optTruthy (findF fs (cs "questionId")) with
          | some v => some (jsToString v)
          | none =>
            match optTruthy (findF fs (cs "id")) with
            | some v => some (jsToString v)
            | none => none
      | _ => none)

/-- Question-id candidates of one interview result (route.ts lines 435-441):
every truthy `questionId` inside the `results` array, stringified. -/
def qidsOfIR (ir : Json) : List (List Char) :=
  (getArr ir (cs "results")).filterMap (fun r =>
    match optTruthy (getF r (cs "questionId")) with
    | some v => some (jsToString v)
    | none => none)

/-- Insertion-order deduplication, as `Set` insertion performs. -/
def firstDedup : List (List Char) → List (List Char) :=
  go []
where
  go (seen : List (List Char)) : List (List Char) → List (List Char)
    | [] => []
    | x :: xs => if x ∈ seen then go seen xs else x :: go (x :: seen) xs

/-- The deduplicated set of all question ids referenced anywhere in the
profiles, in insertion order. -/
def collectQids (profiles : List Json) : List (List Char) :=
  firstDedup (profiles.flatMap (fun p =>
    (getArr p (cs "interviews")).flatMap qidsOfInterview ++
    (getArr p (cs "interviewResults")).flatMap qidsOfIR))

/-- The `$match` document built at lines 449-459: when `objIds` is nonempty
the document gains an `_id: \x7b $in: objIds \x7d` field, and when `strIds`
is nonempty a `$or` of `questionId`/`_id` membership; top-level fields of a
Mongo match document conjoin. -/
def qMatch (objIds strIds : List (List Char)) (d : Json) : Bool :=
  (objIds.isEmpty ||
    (match getF d (cs "_id") with
     | some v => jsToString v ∈ objIds
     | none => false)) &&
  (strIds.isEmpty ||
    ((match getF d (cs "questionId") with
      | some v => jsToString v ∈ strIds
      | none => false) ||
     (match getF d (cs "_id") with
      | some v => jsToString v ∈ strIds
      | none => false)))

/-- The one batched lookup against `interviewquestions`: filter by the match
document, project to the question fields (`_id` kept by inclusion
projection). -/
def hydrateQuery (db : List Json) (objIds strIds : List (List Char)) : List Json :=
  (db.filter (qMatch objIds strIds)).map
    (projectKeep [cs "_id", cs "question", cs "suggestedAnswer",
      cs "questiontype", cs "questionId"])

/-- `Map.set`: overwrite any previous binding. -/
def mapSet (m : List (List Char × Json)) (k : List Char) (v : Json) :
    List (List Char × Json) :=
  (m.filter (fun e => e.1 ≠ k)) ++ [(k, v)]

/-- The `byKey` map (lines 468-472): every fetched question is keyed by its
stringified `_id` and by its `questionId` when truthy. -/
def buildByKey (questions : List Json) : List (List Char × Json) :=
  questions.foldl
    (fun m q =>
      let m1 :=
        match optTruthy (getF q (cs "_id")) with
        | some v => mapSet m (jsToString v) q
        | none => m
      match optTruthy (getF q (cs "questionId")) with
      | some v => mapSet m1 (jsToString v) q
      | none => m1)
    []

/-- Second-pass enrichment of one interview (lines 476-493): resolve each
entry of `interviewquestions` through `byKey` (string entries directly;
object entries through `_id` then `questionId`; a falsy key is skipped) and
set the result array as `interviewQuestionDetails`. -/
def enrichIv (byKey : List (List Char × Json)) (iv : Json) : Json :=
  let enriched := (getArr iv (cs "interviewquestions")).filterMap (fun q =>
    let key : Option (List Char) :=
      match q with
      | Json.str s => some s
      | Json.obj fs =>
        match optTruthy (findF fs (cs "_id")) with
        | some v => some (jsToString v)
        | none =>
          match optTruthy (findF fs (cs "questionId")) with
          | some v => some (jsToString v)
          | none => none
      | _ => none
    match key with
    | some k => if k.isEmpty then none else findF byKey k
    | none => none)
  setF iv (cs "interviewQuestionDetails") (Json.arr enriched)

/-- Second-pass enrichment of one interview result (lines 495-503): when
`results` is truthy, set `resolvedResults` to a copy of each result row
extended with the resolved `questionDoc` (or `null`). -/
def enrichIR (byKey : List (List Char × Json)) (ir : Json) : Json :=
  if truthy ((getF ir (cs "results")).getD Json.null) = false then ir
  else
    setF ir (cs "resolvedResults") (Json.arr
      ((getArr ir (cs "results")).map (fun r =>
        let qd : Json :=
          match optTruthy (getF r (cs "questionId")) with
          | some v =>
            let k := jsToString v
            if k.isEmpty then Json.null
            else
              match findF byKey k with
              | some q => q
              | none => Json.null
          | none => Json.null
        setF r (cs "questionDoc") qd)))

/-- The array carried by field `k`, when `x[k]` holds one. -/
def arrField? (x : Json) (k : List Char) : Option (List Json) :=
  match getF x k with
  | some (Json.arr xs) => some xs
  | _ => none

/-- Second pass over one profile: rebuild its `interviews` and
`interviewResults` arrays with the enriched entries (in the source the entry
objects are mutated in place; the arrays and all other fields are not
touched). -/
def hydrateProfile (byKey : List (List Char × Json)) (p : Json) : Json :=
  let p1 :=
    match arrField? p (cs "interviews") with
    | some ivs => setF p (cs "interviews") (Json.arr (ivs.map (enrichIv byKey)))
    | none => p
  match arrField? p1 (cs "interviewResults") with
  | some irs => setF p1 (cs "interviewResults") (Json.arr (irs.map (enrichIR byKey)))
  | none => p1

/-- `hydrateInterviewQuestionsForProfiles`, paired with the number of
`query` calls it issues against the `interviewquestions` collection: zero
when no question id is referenced (line 444 returns early), otherwise
exactly one batched lookup. -/
def hydrateInterviewQuestionsForProfiles (db : List Json) (profiles : List Json) :
    List Json × Nat :=
  let qids := collectQids profiles
  if qids.isEmpty then (profiles, 0)
  else
    let objIds := qids.filter isValidObjectId
    let strIds := qids.filter (fun s => !isValidObjectId s)
    let byKey := buildByKey (hydrateQuery db objIds strIds)
    (profiles.map (hydrateProfile byKey), 1)

/-- Json object test. -/
def isObjJ : Json → Bool
  | Json.obj _ => true
  | _ => false

/-- Well-formed interview entry: an object whose `interviewquestions` field,
if truthy, is an array (entries themselves are arbitrary — the source guards
every entry shape). -/
def wfIv (iv : Json) : Bool :=
  isObjJ iv &&
  (match getF iv (cs "interviewquestions") with
   | none => true
   | some v => !truthy v || (match v with | Json.arr _ => true | _ => false))

/-- Well-formed interview result: an object whose `results` field, if
truthy, is an array of objects. -/
def wfIR (ir : Json) : Bool :=
  isObjJ ir &&
  (match getF ir (cs "results") with
   | none => true
   | some v =>
     !truthy v || (match v with | Json.arr rs => rs.all isObjJ | _ => false))

/-- Well-formed aggregated profile, as `fetchFullProfileForUsers` builds
them: an object whose `interviews` (resp. `interviewResults`) field, if
truthy, is an array of well-formed interviews (resp. results).  On input
outside this set the source throws while iterating; the model is only
claimed faithful on it. -/
def wfProfile (p : Json) : Bool :=
  isObjJ p &&
  (match getF p (cs "interviews") with
   | none => true
   | some v =>
     !truthy v || (match v with | Json.arr ivs => ivs.all wfIv | _ => false)) &&
  (match getF p (cs "interviewResults") with
   | none => true
   | some v =>
     !truthy v || (match v with | Json.arr irs => irs.all wfIR | _ => false))

/-- Erase the field hydration adds to an interview. -/
def scrubIv (iv : Json) : Json :=
  removeF iv (cs "interviewQuestionDetails")

/-- Erase the field hydration adds to an interview result. -/
def scrubIR (ir : Json) : Json :=
  removeF ir (cs "resolvedResults")

/-- Erase, at their exact locations, the two fields hydration is allowed to
set; two profiles agree after scrubbing exactly when they agree everywhere
else. -/
def scrubProfile (p : Json) : Json :=
  let p1 :=
    match arrField? p (cs "interviews") with
    | some ivs => setF p (cs "interviews") (Json.arr (ivs.map scrubIv))
    | none => p
  match arrField? p1 (cs "interviewResults") with
  | some irs => setF p1 (cs "interviewResults") (Json.arr (irs.map scrubIR))
  | none => p1

/-! ### The POST handler as a stream of events (route.ts lines 580-733)

The handler is modelled as a pure function from an environment of
external-call outcomes (body parse, classification, user resolution, data
fetch, explanation, visualization) to the list of newline-delimited events
it enqueues.  `Except.error ()` models a rejected promise or a thrown
exception inside the corresponding step; the surrounding `try` turns any
such failure into a single terminal error event. -/

/-- One emitted NDJSON record, restricted to the fields the studied claims
mention (progress/error messages carry no claim-relevant data). -/
structure Event where
  stage : List Char
  answer : Option (List Char)
  vizSpec : Option Json
deriving DecidableEq

/-- A progress or error event. -/
def evS (st : List Char) : Event :=
  ⟨st, none, none⟩

/-- The terminal error event. -/
def errEvent : Event :=
  evS (cs "error")

/-- The terminal done event. -/
def doneEvent (ans : List Char) (viz : Json) : Event :=
  ⟨cs "done", some ans, some viz⟩

/-- Outcomes of the external interactions of one request. -/
structure AskEnv where
  /-- `req.json()`: the parsed body, or `none` when parsing threw (the
  handler then keeps the empty body). -/
  body : Option Json
  /-- The classification call: the extracted backend text on success. -/
  classifyResp : Except Unit (Option (List Char))
  /-- `resolveUsers` (queries inside it may throw): resolved user rows. -/
  resolveOutcome : Except Unit (List Json)
  /-- The fuzzy-fallback `users` query, when reached and well-formed. -/
  fuzzyOutcome : Except Unit (List Json)
  /-- The profile aggregation / candidate pool / leaderboard fetch, on the
  branches that touch the database. -/
  dataOutcome : Except Unit Json
  /-- The explanation call: the extracted backend text on success. -/
  explainResp : Except Unit (Option (List Char))
  /-- The visualization call: the extracted backend text on success. -/
  vizResp : Except Unit (Option (List Char))

/-- The `|| "\x7b\x7d"` default applied to the classifier text. -/
def classifyRawOf (t : Option (List Char)) : List Char :=
  match t with
  | some u => if u.isEmpty then cs "\x7b\x7d" else u
  | none => cs "\x7b\x7d"

/-- The fixed fallback answer (line 688). -/
def fallbackAnswer : List Char :=
  cs "Sorry, I could not generate a useful answer from the available data."

/-- `rawAnswer || fallback` over the trimmed explanation text. -/
def answerOf (t : Option (List Char)) : List Char :=
  match t with
  | some u => if (trimChars u).isEmpty then fallbackAnswer else trimChars u
  | none => fallbackAnswer

/-- `vizRes…text?.trim() || ""`. -/
def rawVizOf (t : Option (List Char)) : List Char :=
  match t with
  | some u => trimChars u
  | none => []

/-- The code-fence stripping the visualization branch applies (line 708),
identical to the stripping inside `safeJSONParse`. -/
def vizStrip (raw : List Char) : List Char :=
  if startsChars (cs "```") raw then trimChars (stripTrailFence (stripLeadFence raw))
  else raw

/-- The inline visualization parser (lines 707-712): strip fences, parse the
remainder strictly (empty text meaning the empty object); a parse failure is
caught and yields `null`.  Note this is NOT `safeJSONParse`: there is no
brace-span extraction and no trailing-comma repair. -/
def vizParse (raw : List Char) : Json :=
  let r := vizStrip raw
  if r.isEmpty then Json.obj []
  else
    match jsonParse r with
    | some j => j
    | none => Json.null

/-- Whether the intent is one of the three that trigger the fuzzy name
fallback (line 617). -/
def fuzzyIntent (ci : ClassifiedIntent) : Bool :=
  decide (ci.intent = Json.str (cs "student-profile")) ||
  decide (ci.intent = Json.str (cs "student-performance")) ||
  decide (ci.intent = Json.str (cs "interview-history"))

/-- Whether the intent is one of the five that fetch full profiles
(line 633); `includes` compares with strict equality, so a non-string
intent never matches. -/
def profileIntent (ci : ClassifiedIntent) : Bool :=
  decide (ci.intent = Json.str (cs "student-profile")) ||
  decide (ci.intent = Json.str (cs "student-performance")) ||
  decide (ci.intent = Json.str (cs "interview-history")) ||
  decide (ci.intent = Json.str (cs "course-progress")) ||
  decide (ci.intent = Json.str (cs "candidate-recommendation"))

/-- Lines 611-614: `resolveUsers` runs only when a candidate name or
identifier was extracted. -/
def resolveStep (env : AskEnv) (ci : ClassifiedIntent) : Except Unit (List Json) :=
  if ci.candidateName.isSome || ci.candidateEmailOrPhone.isSome then env.resolveOutcome
  else Except.ok []

/-- Lines 617-626, the fuzzy fallback: on an empty resolution for the three
subject intents, build a regex from the first two words of the raw name and
query by it.  A truthy non-string name makes `name.trim()` throw, and an
ill-formed pattern makes the `RegExp` constructor throw; both surface as
`Except.error`. -/
def fuzzyStep (env : AskEnv) (ci : ClassifiedIntent) (users : List Json) :
    Except Unit (List Json) :=
  if users.isEmpty && fuzzyIntent ci then
    match ci.candidateName with
    | some (Json.str s) =>
      if 1 < (trimChars s).length then
        if regexOK (fallbackPattern s) then env.fuzzyOutcome else Except.error ()
      else Except.ok users
    | some _ => Except.error ()
    | none => Except.ok users
  else Except.ok users

/-- Lines 632-648: choose the raw data source by intent; branches that do
not touch the database cannot throw. -/
def dataStep (env : AskEnv) (ci : ClassifiedIntent) (users : List Json) :
    Except Unit Json :=
  if profileIntent ci then
    if users.isEmpty then
      if decide (ci.intent = Json.str (cs "candidate-recommendation")) then env.dataOutcome
      else Except.ok (Json.arr [])
    else env.dataOutcome
  else if decide (ci.intent = Json.str (cs "leaderboard")) then env.dataOutcome
  else Except.ok (Json.obj [(cs "note", Json.str (cs "No specific intent or data to fetch."))])

/-- Lines 685-717: the explanation call, the optional visualization call and
the terminal event.  Between the `explaining` event and this phase the
handler only builds prompt strings from `pipelinePayload`, which is total,
so the first failure point is the explanation call. -/
def finishEvents (env : AskEnv) (visual : Bool) : List Event :=
  match env.explainResp with
  | Except.error _ => [errEvent]
  | Except.ok t =>
    if visual then
      match env.vizResp with
      | Except.error _ => [errEvent]
      | Except.ok vt => [doneEvent (answerOf t) (vizParse (rawVizOf vt))]
    else [doneEvent (answerOf t) Json.null]

/-- Lines 608-683: everything after a successful classification: the first
`fetching` event, user resolution and its fuzzy fallback, the second
`fetching` event, the data fetch, the `fetched` and `explaining` events,
then the finishing phase. -/
def afterClassify (env : AskEnv) (ci : ClassifiedIntent) (visual : Bool) : List Event :=
  evS (cs "fetching") ::
  match resolveStep env ci with
  | Except.error _ => [errEvent]
  | Except.ok u0 =>
    match fuzzyStep env ci u0 with
    | Except.error _ => [errEvent]
    | Except.ok users =>
      evS (cs "fetching") ::
      match dataStep env ci users with
      | Except.error _ => [errEvent]
      | Except.ok _ =>
        evS (cs "fetched") :: evS (cs "explaining") :: finishEvents env visual

/-- The complete event stream of one POST request (lines 580-733): an
invalid or missing question short-circuits to a single error event;
otherwise the `understanding` event is followed by classification and the
rest of the pipeline; any failure yields a single terminal error event. -/
def runAsk (env : AskEnv) : List Event :=
  let body := env.body.getD (Json.obj [])
  match getF body (cs "question") with
  | some (Json.str q) =>
    if q.isEmpty then [errEvent]
    else
      evS (cs "understanding") ::
      match env.classifyResp with
      | Except.error _ => [errEvent]
      | Except.ok t =>
        afterClassify env (classifyQuestion (classifyRawOf t))
          (truthy ((getF body (cs "visualMode")).getD Json.null))
  | _ => [errEvent]

/-- The stage values of a request's event stream, in emission order. -/
def stageTrace (env : AskEnv) : List (List Char) :=
  (runAsk env).map Event.stage

/-! ### Concrete inputs and environments used by the claim theorems -/

/-- A payload whose oversized array sits below the top level. -/
def deepPayload : Json :=
  Json.obj [(cs "a", Json.obj [(cs "b", Json.arr (List.replicate 51 Json.null))])]

/-- The nested `$oid` container that defeats idempotence of the sanitizer. -/
def oidOid : Json :=
  Json.obj [(cs "$oid", Json.obj [(cs "$oid", Json.str (cs "x"))])]

/-- A well-formed profile that references no interview question at all. -/
def profileNoRefs : Json :=
  Json.obj [(cs "user", Json.obj [(cs "name", Json.str (cs "A"))]),
            (cs "interviews", Json.arr []), (cs "interviewResults", Json.arr [])]

/-- A well-formed profile referencing one question by string id. -/
def profileOneRef : Json :=
  Json.obj [(cs "interviews", Json.arr
    [Json.obj [(cs "interviewquestions", Json.arr [Json.str (cs "q1")])]])]

/-- The environment of a request whose classified subject name carries an
unbalanced parenthesis and matches no user directly. -/
def envUnbalanced : AskEnv :=
  { body := some (Json.obj [(cs "question", Json.str (cs "who is A (b"))]),
    classifyResp := Except.ok (some
      (cs "\x7b\"intent\": \"student-profile\", \"candidateName\": \"A (b\"\x7d")),
    resolveOutcome := Except.ok [],
    fuzzyOutcome := Except.ok [],
    dataOutcome := Except.ok Json.null,
    explainResp := Except.ok (some (cs "ok")),
    vizResp := Except.ok none }

/-- The raw visualization text that separates the inline parser from the
Safe Parser: prose before the JSON object. -/
def vizRawEx : List Char :=
  cs "chart: \x7b\"type\": \"bar\"\x7d"

/-- The environment of a visualization-mode request whose backend returns
`vizRawEx`. -/
def envVizProse : AskEnv :=
  { body := some (Json.obj [(cs "question", Json.str (cs "hi")),
      (cs "visualMode", Json.bool true)]),
    classifyResp := Except.ok (some (cs "\x7b\x7d")),
    resolveOutcome := Except.ok [],
    fuzzyOutcome := Except.ok [],
    dataOutcome := Except.ok Json.null,
    explainResp := Except.ok (some (cs "fine")),
    vizResp := Except.ok (some vizRawEx) }

/-- The stage sequences allowed by the claimed state machine: a prefix of
understanding, fetching, explaining, optionally terminated by done or by
error. -/
def claimedTraces : List (List (List Char)) :=
  [[], [cs "understanding"], [cs "understanding", cs "fetching"],
   [cs "understanding", cs "fetching", cs "explaining"],
   [cs "done"], [cs "understanding", cs "done"],
   [cs "understanding", cs "fetching", cs "done"],
   [cs "understanding", cs "fetching", cs "explaining", cs "done"],
   [cs "error"], [cs "understanding", cs "error"],
   [cs "understanding", cs "fetching", cs "error"],
   [cs "understanding", cs "fetching", cs "explaining", cs "error"]]

/-- The stage sequences the handler can actually emit: the full success
trace (with `fetching` twice and the extra `fetched` stage), or a proper
prefix of it terminated by a single error event. -/
def actualTraces : List (List (List Char)) :=
  [[cs "error"],
   [cs "understanding", cs "error"],
   [cs "understanding", cs "fetching", cs "error"],
   [cs "understanding", cs "fetching", cs "fetching", cs "error"],
   [cs "understanding", cs "fetching", cs "fetching", cs "fetched",
    cs "explaining", cs "error"],
   [cs "understanding", cs "fetching", cs "fetching", cs "fetched",
    cs "explaining", cs "done"]]

/-- A fully successful environment: generic intent, no visualization. -/
def envSuccess : AskEnv :=
  { body := some (Json.obj [(cs "question", Json.str (cs "hello"))]),
    classifyResp := Except.ok (some (cs "\x7b\x7d")),
    resolveOutcome := Except.ok [],
    fuzzyOutcome := Except.ok [],
    dataOutcome := Except.ok Json.null,
    explainResp := Except.ok (some (cs "answer")),
    vizResp := Except.ok none }

/-- A question detail document for the frame witness. -/
def dbQ : Json :=
  Json.obj [(cs "_id", Json.str (cs "q1")),
            (cs "question", Json.str (cs "What is X?"))]

/-- A well-formed profile with one interview referencing `q1` and one
interview result whose `results` row references `q1`. -/
def profileW : Json :=
  Json.obj
    [(cs "interviews", Json.arr
       [Json.obj [(cs "interviewquestions", Json.arr [Json.str (cs "q1")])]]),
     (cs "interviewResults", Json.arr
       [Json.obj [(cs "results", Json.arr
          [Json.obj [(cs "questionId", Json.str (cs "q1"))]])]])]


/-! ## Field-list lemmas for the hydration frame property -/

theorem hasKey_of_findF_some {fs : List (List Char × Json)} {k : List Char} {v : Json}
    (h : findF fs k = some v) : hasKey fs k = true := by
  induction fs with
  | nil => simp [findF] at h
  | cons f fs ih =>
    by_cases hf : f.1 = k
    · simp [hasKey, hf]
    · simp only [findF, hf, if_false] at h
      simp [hasKey, hf, ih h]

theorem setFs_of_hasKey {fs : List (List Char × Json)} {k : List Char} {v : Json}
    (h : hasKey fs k = true) : setFs fs k v = setFsM k v fs := by
  simp [setFs, h]

theorem setFsM_cons (k : List Char) (v : Json) (f : List Char × Json)
    (fs : List (List Char × Json)) :
    setFsM k v (f :: fs) = (if f.1 = k then (f.1, v) else f) :: setFsM k v fs := rfl

theorem hasKey_setFsM (k1 : List Char) (a : Json) (fs : List (List Char × Json))
    (k2 : List Char) : hasKey (setFsM k1 a fs) k2 = hasKey fs k2 := by
  induction fs with
  | nil => rfl
  | cons f fs ih =>
    simp only [setFsM_cons]
    by_cases hf : f.1 = k1 <;> simp [hasKey, hf, ih]

theorem findF_setFsM_self {fs : List (List Char × Json)} {k : List Char} {v : Json}
    (h : hasKey fs k = true) : findF (setFsM k v fs) k = some v := by
  induction fs with
  | nil => simp [hasKey] at h
  | cons f fs ih =>
    simp only [setFsM_cons]
    by_cases hf : f.1 = k
    · simp [findF, hf]
    · have h2 : hasKey fs k = true := by simpa [hasKey, hf] using h
      simp [findF, hf, ih h2]

theorem findF_setFsM_ne {k1 k2 : List Char} (h : k2 ≠ k1) (a : Json)
    (fs : List (List Char × Json)) : findF (setFsM k1 a fs) k2 = findF fs k2 := by
  induction fs with
  | nil => rfl
  | cons f fs ih =>
    simp only [setFsM_cons]
    by_cases hf1 : f.1 = k1
    · have hf2 : ¬ f.1 = k2 := by rw [hf1]; exact fun e => h e.symm
      have h3 : ¬ (k1 = k2) := fun e => h e.symm
      simp [findF, hf1, hf2, h3, ih]
    · by_cases hf2 : f.1 = k2 <;> simp [findF, hf1, hf2, h, ih]

theorem removeFs_setFsM (fs : List (List Char × Json)) (k : List Char) (v : Json) :
    removeFs (setFsM k v fs) k = removeFs fs k := by
  induction fs with
  | nil => rfl
  | cons f fs ih =>
    simp only [setFsM_cons]
    by_cases hf : f.1 = k <;> simp [removeFs, hf, ih]

theorem removeFs_append (fs gs : List (List Char × Json)) (k : List Char) :
    removeFs (fs ++ gs) k = removeFs fs k ++ removeFs gs k := by
  induction fs with
  | nil => rfl
  | cons f fs ih => by_cases hf : f.1 = k <;> simp [removeFs, hf, ih]

theorem setFsM_absorb (k : List Char) (a b : Json) (fs : List (List Char × Json)) :
    setFsM k b (setFsM k a fs) = setFsM k b fs := by
  induction fs with
  | nil => rfl
  | cons f fs ih =>
    simp only [setFsM_cons]
    by_cases hf : f.1 = k <;> simp [hf, ih]

theorem setFsM_comm {k1 k2 : List Char} (h : k1 ≠ k2) (a b : Json)
    (fs : List (List Char × Json)) :
    setFsM k2 b (setFsM k1 a fs) = setFsM k1 a (setFsM k2 b fs) := by
  induction fs with
  | nil => rfl
  | cons f fs ih =>
    simp only [setFsM_cons]
    by_cases h1 : f.1 = k1
    · have h2 : ¬ f.1 = k2 := by rw [h1]; exact h
      simp [h1, h2, h, ih]
    · by_cases h2 : f.1 = k2
      · have h4 : ¬ (k2 = k1) := fun e => h e.symm
        simp [h1, h2, h4, ih]
      · simp [h1, h2, ih]

/-- Removing the key just written recovers the removal on the original
object, whether the write overwrote or appended. -/
theorem removeF_setF_same (x : Json) (k : List Char) (v : Json) :
    removeF (setF x k v) k = removeF x k := by
  cases x with
  | obj fs =>
    by_cases h : hasKey fs k = true
    · simp [setF, setFs, h, removeF, removeFs_setFsM]
    · simp only [setF, setFs, h, if_false, Bool.not_eq_true] at *
      simp [setF, removeF, setFs, h, removeFs_append, removeFs]
  | null => rfl
  | bool b => rfl
  | num n => rfl
  | str s => rfl
  | arr xs => rfl

theorem scrubIv_enrichIv (byKey : List (List Char × Json)) (iv : Json) :
    scrubIv (enrichIv byKey iv) = scrubIv iv := by
  simp only [scrubIv, enrichIv]
  exact removeF_setF_same iv _ _

theorem scrubIR_enrichIR (byKey : List (List Char × Json)) (ir : Json) :
    scrubIR (enrichIR byKey ir) = scrubIR ir := by
  simp only [scrubIR, enrichIR]
  by_cases h : truthy ((getF ir (cs "results")).getD Json.null) = false
  · simp [h]
  · simp only [h, if_false]
    exact removeF_setF_same ir _ _

theorem arrField?_some_iff {fs : List (List Char × Json)} {k : List Char}
    {xs : List Json} :
    arrField? (Json.obj fs) k = some xs ↔ findF fs k = some (Json.arr xs) := by
  simp only [arrField?, getF]
  cases hf : findF fs k with
  | none => simp
  | some j => cases j <;> simp

theorem arrField?_objM_ne {k1 k2 : List Char} (h : k2 ≠ k1) (v : Json)
    (fs : List (List Char × Json)) :
    arrField? (Json.obj (setFsM k1 v fs)) k2 = arrField? (Json.obj fs) k2 := by
  simp [arrField?, getF, findF_setFsM_ne h]

theorem arrField?_objM_self {fs : List (List Char × Json)} {k : List Char}
    {xs : List Json} (h : hasKey fs k = true) :
    arrField? (Json.obj (setFsM k (Json.arr xs) fs)) k = some xs := by
  simp [arrField?, getF, findF_setFsM_self h]

theorem map_scrubIv_enrichIv (byKey : List (List Char × Json)) (ivs : List Json) :
    (ivs.map (enrichIv byKey)).map scrubIv = ivs.map scrubIv := by
  rw [List.map_map]
  exact List.map_congr_left (fun iv _ => scrubIv_enrichIv byKey iv)

theorem map_scrubIR_enrichIR (byKey : List (List Char × Json)) (irs : List Json) :
    (irs.map (enrichIR byKey)).map scrubIR = irs.map scrubIR := by
  rw [List.map_map]
  exact List.map_congr_left (fun ir _ => scrubIR_enrichIR byKey ir)

theorem setF_obj (fs : List (List Char × Json)) (k : List Char) (v : Json)
    (h : hasKey fs k = true) :
    setF (Json.obj fs) k v = Json.obj (setFsM k v fs) := by
  simp [setF, setFs, h]

/-- The per-profile frame lemma: after erasing the two added fields at their
locations, the hydrated profile is the original profile. -/
theorem scrubProfile_hydrateProfile (byKey : List (List Char × Json)) (p : Json) :
    scrubProfile (hydrateProfile byKey p) = scrubProfile p := by
  cases p with
  | obj fs =>
    cases hiv : arrField? (Json.obj fs) (cs "interviews") with
    | some ivs =>
      have hfiv := arrField?_some_iff.1 hiv
      have hkiv := hasKey_of_findF_some hfiv
      have hne : (cs "interviewResults") ≠ (cs "interviews") := by decide
      have hne2 : (cs "interviews") ≠ (cs "interviewResults") := by decide
      have e1 := setF_obj fs (cs "interviews")
        (Json.arr (ivs.map (enrichIv byKey))) hkiv
      have e1s := setF_obj fs (cs "interviews")
        (Json.arr (ivs.map scrubIv)) hkiv
      cases hir : arrField? (Json.obj fs) (cs "interviewResults") with
      | some irs =>
        have hfir := arrField?_some_iff.1 hir
        have hkir := hasKey_of_findF_some hfir
        have e2 : arrField? (Json.obj (setFsM (cs "interviews")
            (Json.arr (ivs.map (enrichIv byKey))) fs)) (cs "interviewResults") = some irs := by
          rw [arrField?_objM_ne hne]; exact hir
        have e3 := setF_obj (setFsM (cs "interviews")
            (Json.arr (ivs.map (enrichIv byKey))) fs) (cs "interviewResults")
            (Json.arr (irs.map (enrichIR byKey)))
            (by rw [hasKey_setFsM]; exact hkir)
        have hhyd : hydrateProfile byKey (Json.obj fs)
            = Json.obj (setFsM (cs "interviewResults") (Json.arr (irs.map (enrichIR byKey)))
                (setFsM (cs "interviews") (Json.arr (ivs.map (enrichIv byKey))) fs)) := by
          simp only [hydrateProfile, hiv, e1, e2, e3]
        have s1 : arrField? (Json.obj (setFsM (cs "interviewResults")
            (Json.arr (irs.map (enrichIR byKey)))
            (setFsM (cs "interviews") (Json.arr (ivs.map (enrichIv byKey))) fs)))
            (cs "interviews") = some (ivs.map (enrichIv byKey)) := by
          rw [arrField?_objM_ne hne2]
          exact arrField?_objM_self hkiv
        have s2 : setF (Json.obj (setFsM (cs "interviewResults")
            (Json.arr (irs.map (enrichIR byKey)))
            (setFsM (cs "interviews") (Json.arr (ivs.map (enrichIv byKey))) fs)))
            (cs "interviews") (Json.arr ((ivs.map (enrichIv byKey)).map scrubIv))
            = Json.obj (setFsM (cs "interviews") (Json.arr (ivs.map scrubIv))
                (setFsM (cs "interviewResults") (Json.arr (irs.map (enrichIR byKey)))
                  (setFsM (cs "interviews") (Json.arr (ivs.map (enrichIv byKey))) fs))) := by
          rw [map_scrubIv_enrichIv]
          exact setF_obj _ _ _
            (by rw [hasKey_setFsM, hasKey_setFsM]; exact hkiv)
        have s3 : arrField? (Json.obj (setFsM (cs "interviews")
            (Json.arr (ivs.map scrubIv))
            (setFsM (cs "interviewResults") (Json.arr (irs.map (enrichIR byKey)))
              (setFsM (cs "interviews") (Json.arr (ivs.map (enrichIv byKey))) fs))))
            (cs "interviewResults") = some (irs.map (enrichIR byKey)) := by
          rw [arrField?_objM_ne hne]
          exact arrField?_objM_self (by rw [hasKey_setFsM]; exact hkir)
        have s4 : setF (Json.obj (setFsM (cs "interviews")
            (Json.arr (ivs.map scrubIv))
            (setFsM (cs "interviewResults") (Json.arr (irs.map (enrichIR byKey)))
              (setFsM (cs "interviews") (Json.arr (ivs.map (enrichIv byKey))) fs))))
            (cs "interviewResults") (Json.arr ((irs.map (enrichIR byKey)).map scrubIR))
            = Json.obj (setFsM (cs "interviewResults") (Json.arr (irs.map scrubIR))
                (setFsM (cs "interviews") (Json.arr (ivs.map scrubIv))
                  (setFsM (cs "interviewResults") (Json.arr (irs.map (enrichIR byKey)))
                    (setFsM (cs "interviews") (Json.arr (ivs.map (enrichIv byKey))) fs)))) := by
          rw [map_scrubIR_enrichIR]
          exact setF_obj _ _ _
            (by rw [hasKey_setFsM, hasKey_setFsM, hasKey_setFsM]; exact hkir)
        have r2 : arrField? (Json.obj (setFsM (cs "interviews")
            (Json.arr (ivs.map scrubIv)) fs)) (cs "interviewResults") = some irs := by
          rw [arrField?_objM_ne hne]; exact hir
        have r3 := setF_obj (setFsM (cs "interviews")
            (Json.arr (ivs.map scrubIv)) fs) (cs "interviewResults")
            (Json.arr (irs.map scrubIR))
            (by rw [hasKey_setFsM]; exact hkir)
        rw [hhyd]
        simp only [scrubProfile, s1, s2, s3, s4, hiv, e1s, r2, r3]
        rw [setFsM_comm hne2 (Json.arr (ivs.map (enrichIv byKey)))
          (Json.arr (irs.map (enrichIR byKey))) fs]
        rw [setFsM_absorb]
        rw [setFsM_comm hne (Json.arr (irs.map (enrichIR byKey)))
          (Json.arr (ivs.map scrubIv)) fs]
        rw [setFsM_absorb]
      | none =>
        have e2 : arrField? (Json.obj (setFsM (cs "interviews")
            (Json.arr (ivs.map (enrichIv byKey))) fs)) (cs "interviewResults") = none := by
          rw [arrField?_objM_ne hne]; exact hir
        have hhyd : hydrateProfile byKey (Json.obj fs)
            = Json.obj (setFsM (cs "interviews") (Json.arr (ivs.map (enrichIv byKey))) fs) := by
          simp only [hydrateProfile, hiv, e1, e2]
        have s1 : arrField? (Json.obj (setFsM (cs "interviews")
            (Json.arr (ivs.map (enrichIv byKey))) fs)) (cs "interviews")
            = some (ivs.map (enrichIv byKey)) := arrField?_objM_self hkiv
        have s2 : setF (Json.obj (setFsM (cs "interviews")
            (Json.arr (ivs.map (enrichIv byKey))) fs)) (cs "interviews")
            (Json.arr ((ivs.map (enrichIv byKey)).map scrubIv))
            = Json.obj (setFsM (cs "interviews") (Json.arr (ivs.map scrubIv)) fs) := by
          rw [map_scrubIv_enrichIv]
          rw [setF_obj _ _ _ (by rw [hasKey_setFsM]; exact hkiv)]
          rw [setFsM_absorb]
        have s3 : arrField? (Json.obj (setFsM (cs "interviews")
            (Json.arr (ivs.map scrubIv)) fs)) (cs "interviewResults") = none := by
          rw [arrField?_objM_ne hne]; exact hir
        rw [hhyd]
        simp only [scrubProfile, s1, s2, s3, hiv, e1s]
    | none =>
      cases hir : arrField? (Json.obj fs) (cs "interviewResults") with
      | some irs =>
        have hfir := arrField?_some_iff.1 hir
        have hkir := hasKey_of_findF_some hfir
        have hne : (cs "interviewResults") ≠ (cs "interviews") := by decide
        have hne2 : (cs "interviews") ≠ (cs "interviewResults") := by decide
        have e3 := setF_obj fs (cs "interviewResults")
          (Json.arr (irs.map (enrichIR byKey))) hkir
        have hhyd : hydrateProfile byKey (Json.obj fs)
            = Json.obj (setFsM (cs "interviewResults")
                (Json.arr (irs.map (enrichIR byKey))) fs) := by
          simp only [hydrateProfile, hiv, hir, e3]
        have s1 : arrField? (Json.obj (setFsM (cs "interviewResults")
            (Json.arr (irs.map (enrichIR byKey))) fs)) (cs "interviews") = none := by
          rw [arrField?_objM_ne hne2]; exact hiv
        have s3 : arrField? (Json.obj (setFsM (cs "interviewResults")
            (Json.arr (irs.map (enrichIR byKey))) fs)) (cs "interviewResults")
            = some (irs.map (enrichIR byKey)) := arrField?_objM_self hkir
        have s4 : setF (Json.obj (setFsM (cs "interviewResults")
            (Json.arr (irs.map (enrichIR byKey))) fs)) (cs "interviewResults")
            (Json.arr ((irs.map (enrichIR byKey)).map scrubIR))
            = Json.obj (setFsM (cs "interviewResults") (Json.arr (irs.map scrubIR)) fs) := by
          rw [map_scrubIR_enrichIR]
          rw [setF_obj _ _ _ (by rw [hasKey_setFsM]; exact hkir)]
          rw [setFsM_absorb]
        have r3 := setF_obj fs (cs "interviewResults")
          (Json.arr (irs.map scrubIR)) hkir
        rw [hhyd]
        simp only [scrubProfile, s1, s3, s4, hiv, hir, r3]
      | none =>
        have hhyd : hydrateProfile byKey (Json.obj fs) = Json.obj fs := by
          simp only [hydrateProfile, hiv, hir]
        rw [hhyd]
  | null => rfl
  | bool b => rfl
  | num n => rfl
  | str s => rfl
  | arr xs => rfl

/-! ## Claim theorems -/

/-- Claim C9: `safeJSONParse` is total — for every input string it returns
either a parsed JSON value or null and never throws; in particular the empty
string, non-JSON prose and unbalanced braces yield null, while code-fenced
and trailing-comma inputs yield parsed values. -/
theorem safeJSONParse_total_never_throws :
    (∀ s : List Char, safeJSONParse s = none ∨ ∃ j, safeJSONParse s = some j)
    ∧ safeJSONParse (cs "") = none
    ∧ safeJSONParse (cs "this is not JSON, just prose.") = none
    ∧ safeJSONParse (cs "```json\n\x7b\"intent\": \"leaderboard\"\x7d\n```") =
        some (Json.obj [(cs "intent", Json.str (cs "leaderboard"))])
    ∧ safeJSONParse (cs "\x7b\"a\": [1, 2,], \"b\": 3,\x7d") =
        some (Json.obj [(cs "a", Json.arr [Json.num 1, Json.num 2]), (cs "b", Json.num 3)])
    ∧ safeJSONParse (cs "\x7b\"a\": \x7b\"b\": 1") = none := by
  refine ⟨fun s => ?_, by decide, by decide, by decide, by decide, by decide⟩
  cases h : safeJSONParse s with
  | none => exact Or.inl rfl
  | some j => exact Or.inr ⟨j, rfl⟩

/-- Claim C2 counterexample: on backend text carrying a truthy intent value
outside the declared seven-value set, `classifyQuestion` copies the value
through unvalidated instead of normalizing it to `generic`, so the returned
intent escapes the set. -/
theorem classify_invalid_intent_escapes :
    classifyQuestion (cs "\x7b\"intent\": \"banana\"\x7d") =
      ⟨Json.str (cs "banana"), none, none, none, some (Json.num 5)⟩
    ∧ (classifyQuestion (cs "\x7b\"intent\": \"banana\"\x7d")).intent ∉ intentSet := by
  exact ⟨by decide, by decide⟩

/-- Claim C2 (amended): `classifyQuestion` returns the generic intent
exactly when the backend text fails to parse or parses to a value that is
falsy or lacks a truthy `intent` field; otherwise it copies the parsed
`intent` value through without validating membership in the seven-value
set. -/
theorem classify_generic_on_absent_intent (raw : List Char) :
    (safeJSONParse raw = none → classifyQuestion raw = genericCI)
    ∧ (∀ j, safeJSONParse raw = some j → truthy j = false →
        classifyQuestion raw = genericCI)
    ∧ (∀ j, safeJSONParse raw = some j → truthy j = true →
        getF j (cs "intent") = none → classifyQuestion raw = genericCI)
    ∧ (∀ j iv, safeJSONParse raw = some j → truthy j = true →
        getF j (cs "intent") = some iv → truthy iv = false →
        classifyQuestion raw = genericCI)
    ∧ (∀ j iv, safeJSONParse raw = some j → truthy j = true →
        getF j (cs "intent") = some iv → truthy iv = true →
        (classifyQuestion raw).intent = iv) := by
  refine ⟨?_, ?_, ?_, ?_, ?_⟩
  · intro h; simp [classifyQuestion, h]
  · intro j hj ht; simp [classifyQuestion, hj, ht]
  · intro j hj ht hi; simp [classifyQuestion, hj, ht, hi]
  · intro j iv hj ht hi hf; simp [classifyQuestion, hj, ht, hi, hf]
  · intro j iv hj ht hi hf; simp [classifyQuestion, hj, ht, hi, hf]

/-- Witness for the amended C2 theorem at concrete inputs: a parsed object
with a truthy numeric intent has that number copied through. -/
theorem classify_generic_on_absent_intent_witness :
    (classifyQuestion (cs "\x7b\"intent\": 7\x7d")).intent = Json.num 7
    ∧ classifyQuestion (cs "\x7b\"intent\": \"\"\x7d") = genericCI :=
  ⟨(classify_generic_on_absent_intent (cs "\x7b\"intent\": 7\x7d")).2.2.2.2
      (Json.obj [(cs "intent", Json.num 7)]) (Json.num 7)
      (by decide) (by decide) (by decide) (by decide),
   (classify_generic_on_absent_intent (cs "\x7b\"intent\": \"\"\x7d")).2.2.2.1
      (Json.obj [(cs "intent", Json.str [])]) (Json.str [])
      (by decide) (by decide) (by decide) (by decide)⟩

/-- Claim C3 counterexample: `limitPayload` does not traverse below the top
level — a 51-element array nested under a non-array field survives the
`maxItems = 50` bound unchanged, both in `limitPayload` itself and in the
pipeline composition. -/
theorem limitPayload_misses_nested_arrays :
    limitPayload deepPayload 50 = deepPayload
    ∧ arraysBounded 50 (limitPayload deepPayload 50) = false
    ∧ arraysBounded 50 (pipelinePayload deepPayload) = false := by
  exact ⟨by decide, by decide, by decide⟩

/-- Claim C3 (amended): `limitPayload v m` bounds exactly the top level — a
top-level array, and each array-valued direct field of a top-level object,
is truncated to at most `m` elements (deeper arrays are not traversed), and
the pipeline applies this bound with `m = 50` to the sanitized payload. -/
theorem limitPayload_bounds_top_level :
    (∀ (v : Json) (m : Nat), topBounded m (limitPayload v m) = true)
    ∧ ∀ rawData : Json, topBounded 50 (pipelinePayload rawData) = true := by
  have h : ∀ (v : Json) (m : Nat), topBounded m (limitPayload v m) = true := by
    intro v m
    cases v with
    | arr xs => simp [limitPayload, topBounded]
    | obj fs =>
      simp only [limitPayload, topBounded, List.all_eq_true]
      intro f hf
      rcases List.mem_map.1 hf with ⟨g, _, rfl⟩
      cases g.2 <;> simp
    | null => rfl
    | bool b => rfl
    | num n => rfl
    | str s => rfl
  exact ⟨h, fun rawData => h (cleanForLLM rawData) 50⟩

/-- Claim C4 counterexample: the sanitizer is not idempotent.  On a payload
whose `$oid` key holds an object that itself collapses to a string, the
first pass produces a fresh string-valued `$oid` container, which the
second pass collapses further. -/
theorem cleanForLLM_not_idempotent :
    cleanForLLM oidOid = Json.obj [(cs "$oid", Json.str (cs "x"))]
    ∧ cleanForLLM (cleanForLLM oidOid) = Json.str (cs "x")
    ∧ cleanForLLM (cleanForLLM oidOid) ≠ cleanForLLM oidOid := by
  exact ⟨by decide, by decide, by decide⟩

/-- Claim C4 (amended): `limitPayload` is idempotent for every payload and
maximum, but `cleanForLLM` is not idempotent in general. -/
theorem limitPayload_idempotent_cleanForLLM_not :
    (∀ (p : Json) (m : Nat), limitPayload (limitPayload p m) m = limitPayload p m)
    ∧ ∃ p : Json, cleanForLLM (cleanForLLM p) ≠ cleanForLLM p := by
  refine ⟨fun p m => ?_, ⟨oidOid, by decide⟩⟩
  cases p with
  | arr xs => simp [limitPayload, List.take_take]
  | obj fs =>
    simp only [limitPayload, List.map_map]
    congr 1
    apply List.map_congr_left
    intro f _
    cases h : f.2 <;> simp [h, List.take_take]
  | null => rfl
  | bool b => rfl
  | num n => rfl
  | str s => rfl

/-- Claim C7: for every ranked candidate list and every `topK ≥ 1`, the
candidate pool is limited to at most `max(topK × 5, 50)` rows (the code
limits to `Math.max(topK, 50)`, which is within that bound). -/
theorem candidate_pool_bounded (pool : List Json) (topK : Nat) (h : 1 ≤ topK) :
    (fetchCandidatePoolForJob pool topK).length ≤ Nat.max (topK * 5) 50 := by
  unfold fetchCandidatePoolForJob
  have h1 : Nat.max topK 50 ≤ Nat.max (topK * 5) 50 := by
    simp only [Nat.max_def]
    split_ifs <;> omega
  calc ((pool.take (Nat.max topK 50)).map _).length
      = (pool.take (Nat.max topK 50)).length := List.length_map _ _
    _ ≤ Nat.max topK 50 := List.length_take_le _ _
    _ ≤ Nat.max (topK * 5) 50 := h1

/-- Witness for the C7 bound at a concrete pool of 60 candidate rows and
`topK = 2`. -/
theorem candidate_pool_bounded_witness :
    1 ≤ 2
    ∧ (fetchCandidatePoolForJob (List.replicate 60 Json.null) 2).length ≤ Nat.max (2 * 5) 50 :=
  ⟨by decide, candidate_pool_bounded (List.replicate 60 Json.null) 2 (by decide)⟩

/-- Claim C5 counterexample: the hydrator issues zero (not one) batched
queries when the profile list references no question id — both for the
empty list and for a nonempty well-formed profile without references — so
"exactly one query regardless of N and of the referenced ids" fails. -/
theorem hydrate_zero_queries_without_refs :
    (hydrateInterviewQuestionsForProfiles [] []).2 = 0
    ∧ (hydrateInterviewQuestionsForProfiles [] [profileNoRefs]).2 = 0
    ∧ wfProfile profileNoRefs = true
    ∧ (hydrateInterviewQuestionsForProfiles [] []).2 ≠ 1 := by
  exact ⟨by decide, by decide, by decide, by decide⟩

/-- Claim C5 (amended): for every well-formed profile list the hydrator
issues at most one batched query against the `interviewquestions`
collection, and exactly one precisely when at least one question id is
referenced. -/
theorem hydrate_at_most_one_query (db profiles : List Json)
    (_h : profiles.all wfProfile = true) :
    (hydrateInterviewQuestionsForProfiles db profiles).2 ≤ 1
    ∧ ((hydrateInterviewQuestionsForProfiles db profiles).2 = 1 ↔
        collectQids profiles ≠ []) := by
  cases hl : collectQids profiles with
  | nil => simp [hydrateInterviewQuestionsForProfiles, hl]
  | cons a as => simp [hydrateInterviewQuestionsForProfiles, hl]

/-- Witness for the amended C5 theorem at a concrete well-formed profile
with one referenced question id. -/
theorem hydrate_at_most_one_query_witness :
    ([profileOneRef].all wfProfile = true)
    ∧ (hydrateInterviewQuestionsForProfiles [] [profileOneRef]).2 ≤ 1
    ∧ ((hydrateInterviewQuestionsForProfiles [] [profileOneRef]).2 = 1 ↔
        collectQids [profileOneRef] ≠ []) :=
  ⟨by decide,
   (hydrate_at_most_one_query [] [profileOneRef] (by decide)).1,
   (hydrate_at_most_one_query [] [profileOneRef] (by decide)).2⟩

/-- Claim C6: the code does not escape regex metacharacters anywhere —
`resolveUsers` strips them (removing them outright rather than escaping),
and the fuzzy fallback in the POST handler performs no sanitization at all,
so a name with an unbalanced metacharacter reaches the `RegExp` constructor
verbatim, the constructor throws, and the request ends in an error event. -/
theorem fallback_regex_unescaped_throws :
    fallbackPattern (cs "A (b") = cs "A (b"
    ∧ regexOK (cs "A (b") = false
    ∧ regexOK (escapeRegex (cs "A (b")) = true
    ∧ resolveUsersPattern (cs "A.*B (test)") = cs "AB test"
    ∧ resolveUsersPattern (cs "A.*B (test)") ≠ escapeRegex (cs "A.*B (test)")
    ∧ stageTrace envUnbalanced = [cs "understanding", cs "fetching", cs "error"] := by
  exact ⟨by decide, by decide, by decide, by decide, by decide, by decide⟩

/-- Claim C8 counterexample: the visualization branch does not apply the
Safe Parser.  On text with prose before the JSON object, `safeJSONParse`
extracts and parses the object while the inline parser fails, so the
request completes with `done` carrying `vizSpec = null` where the claimed
behavior would carry the parsed object. -/
theorem viz_branch_not_safeJSONParse :
    runAsk envVizProse =
      [evS (cs "understanding"), evS (cs "fetching"), evS (cs "fetching"),
       evS (cs "fetched"), evS (cs "explaining"), doneEvent (cs "fine") Json.null]
    ∧ safeJSONParse vizRawEx = some (Json.obj [(cs "type", Json.str (cs "bar"))])
    ∧ vizParse vizRawEx ≠ (safeJSONParse vizRawEx).getD Json.null := by
  exact ⟨by decide, by decide, by decide⟩

/-- Claim C8 (amended): the visualization branch applies its own inline
parser (code-fence strip plus strict JSON parse, empty text meaning the
empty object); whenever that parse fails the spec is `null` rather than an
error, and whenever the explanation and visualization calls return, the
finishing phase emits exactly the terminal `done` event carrying that
spec. -/
theorem viz_parse_failure_yields_null :
    (∀ raw : List Char, (vizStrip raw).isEmpty = false →
        jsonParse (vizStrip raw) = none → vizParse raw = Json.null)
    ∧ (∀ (env : AskEnv) (et vt : Option (List Char)),
        env.explainResp = Except.ok et → env.vizResp = Except.ok vt →
        finishEvents env true = [doneEvent (answerOf et) (vizParse (rawVizOf vt))]) := by
  constructor
  · intro raw h1 h2
    simp [vizParse, h1, h2]
  · intro env et vt he hv
    simp [finishEvents, he, hv]

/-- Witness for the amended C8 theorem: the inline parser yields null on
unparsable text, and a concrete finishing phase emits the single done
event. -/
theorem viz_parse_failure_yields_null_witness :
    vizParse (cs "not a chart") = Json.null
    ∧ finishEvents envVizProse true =
        [doneEvent (answerOf (some (cs "fine"))) (vizParse (rawVizOf (some vizRawEx)))] :=
  ⟨viz_parse_failure_yields_null.1 (cs "not a chart") (by decide) (by decide),
   viz_parse_failure_yields_null.2 envVizProse (some (cs "fine")) (some vizRawEx) rfl rfl⟩

/-- Claim C1 counterexample: a fully successful request emits the stage
sequence understanding, fetching, fetching, fetched, explaining, done —
`fetching` appears twice and `fetched` is not among the claimed stage
values, so the sequence lies outside every claimed prefix. -/
theorem stage_trace_outside_claimed :
    stageTrace envSuccess =
      [cs "understanding", cs "fetching", cs "fetching", cs "fetched",
       cs "explaining", cs "done"]
    ∧ stageTrace envSuccess ∉ claimedTraces := by
  exact ⟨by decide, by decide⟩

/-- The finishing phase emits exactly one terminal event. -/
theorem finishEvents_stage (env : AskEnv) (visual : Bool) :
    (finishEvents env visual).map Event.stage = [cs "error"] ∨
    (finishEvents env visual).map Event.stage = [cs "done"] := by
  unfold finishEvents
  cases env.explainResp with
  | error e => exact Or.inl rfl
  | ok t =>
    cases visual with
    | false => exact Or.inr rfl
    | true =>
      cases env.vizResp with
      | error e => exact Or.inl rfl
      | ok vt => exact Or.inr rfl

/-- The post-classification phase emits one of four stage sequences. -/
theorem afterClassify_stage (env : AskEnv) (ci : ClassifiedIntent) (visual : Bool) :
    (afterClassify env ci visual).map Event.stage ∈
      [[cs "fetching", cs "error"],
       [cs "fetching", cs "fetching", cs "error"],
       [cs "fetching", cs "fetching", cs "fetched", cs "explaining", cs "error"],
       [cs "fetching", cs "fetching", cs "fetched", cs "explaining", cs "done"]] := by
  unfold afterClassify
  cases hr : resolveStep env ci with
  | error e => simp [hr, evS, errEvent]
  | ok u0 =>
    cases hf : fuzzyStep env ci u0 with
    | error e => simp [hr, hf, evS, errEvent]
    | ok users =>
      cases hd : dataStep env ci users with
      | error e => simp [hr, hf, hd, evS, errEvent]
      | ok raw =>
        rcases finishEvents_stage env visual with hfin | hfin <;>
          simp [hr, hf, hd, evS, errEvent, hfin]

/-- Claim C1 (amended): for every environment the emitted stage sequence is
either the full success trace understanding, fetching, fetching, fetched,
explaining, done, or a proper prefix of it followed by a single terminal
error — in particular stages advance strictly forward and nothing follows
done or error, but `fetching` is emitted twice and a `fetched` stage exists,
so the claimed four-stage alphabet is inaccurate. -/
theorem stage_trace_characterized (env : AskEnv) :
    stageTrace env ∈ actualTraces := by
  unfold stageTrace runAsk
  cases hq : getF (env.body.getD (Json.obj [])) (cs "question") with
  | none => simp [hq, actualTraces, errEvent, evS]
  | some j =>
    cases j with
    | str q =>
      cases q with
      | nil => simp [hq, actualTraces, errEvent, evS]
      | cons c rest =>
        cases hc : env.classifyResp with
        | error e => simp [hq, hc, actualTraces, errEvent, evS]
        | ok t =>
          have ha := afterClassify_stage env (classifyQuestion (classifyRawOf t))
            (truthy ((getF (env.body.getD (Json.obj [])) (cs "visualMode")).getD Json.null))
          simp only [List.mem_cons, List.not_mem_nil, or_false] at ha
          rcases ha with ha | ha | ha | ha <;>
            simp [hq, hc, actualTraces, errEvent, evS, ha]
    | null => simp [hq, actualTraces, errEvent, evS]
    | bool b => simp [hq, actualTraces, errEvent, evS]
    | num n => simp [hq, actualTraces, errEvent, evS]
    | arr xs => simp [hq, actualTraces, errEvent, evS]
    | obj fs => simp [hq, actualTraces, errEvent, evS]

/-- Claim C10: hydration only adds fields — erasing exactly
`interviewQuestionDetails` from each interview and `resolvedResults` from
each interview result recovers the input profiles field-for-field, so every
other field (including each original `interviewquestions` array and each
original `results` array) is unchanged. -/
theorem hydrate_only_adds_fields (db profiles : List Json)
    (_h : profiles.all wfProfile = true) :
    ((hydrateInterviewQuestionsForProfiles db profiles).1).map scrubProfile
      = profiles.map scrubProfile := by
  cases hl : collectQids profiles with
  | nil => simp [hydrateInterviewQuestionsForProfiles, hl]
  | cons a as =>
    simp only [hydrateInterviewQuestionsForProfiles, hl, List.isEmpty_cons,
      Bool.false_eq_true, if_false, List.map_map]
    exact List.map_congr_left (fun p _ => scrubProfile_hydrateProfile _ p)

/-- Witness for the C10 frame theorem at a concrete database and profile:
the hypothesis holds and the scrubbed hydrated profile equals the scrubbed
input. -/
theorem hydrate_only_adds_fields_witness :
    ([profileW].all wfProfile = true)
    ∧ ((hydrateInterviewQuestionsForProfiles [dbQ] [profileW]).1).map scrubProfile
        = [profileW].map scrubProfile :=
  ⟨by decide, hydrate_only_adds_fields [dbQ] [profileW] (by decide)⟩
